import Mathlib

/-!
Verification of the `diodes` one-to-one ring buffer (`one_to_one.go`).

The Go source is embedded shallowly:

* `bucket` / `OneToOne` mirror the Go structs.  The payload type
  `GenericDataType` (an `unsafe.Pointer` in Go) is a type parameter `α`;
  a nullable `*bucket` slot is `Option (Bucket α)`.
* The `uint64` cursors are modelled as unbounded naturals: the spec treats
  them as monotone counters, every subtraction performed by the code is
  guarded so that it cannot underflow, and the 2^64 wraparound is not
  exercised by any claim.
* The `Alerter` callback is modelled as an event log: the `alerts` field
  records, in order, the `missed` argument of every `Alert` invocation
  (a `nil` alerter in Go is replaced by a no-op, so the log is the full
  observable behaviour of the alerter).
* `TryNext`'s retry loop is written with explicit fuel
  (`countSome d.buffer + 1`); `tryNextLoop_congr` proves the fuel is
  irrelevant above that bound and `tryNextAux_eq` recovers the exact
  self-referential unfolding of the Go loop, so the function is the loop.
* Go panics (index/modulo on a zero-length buffer) are modelled by the
  `Option`-returning wrappers `Set?` and `TryNext?`.
-/

namespace Diodes

/-- Go `bucket`: a payload tagged with the write index recorded at the time
of writing (`seq`). -/
structure Bucket (α : Type) where
  data : α
  seq  : Nat
  deriving Repr, DecidableEq

/-- Go `OneToOne`: slot array, the two cursors, and the alerter modelled as
the log of `Alert(missed)` invocations. -/
structure OneToOne (α : Type) where
  buffer     : List (Option (Bucket α))
  writeIndex : Nat
  readIndex  : Nat
  alerts     : List Nat
  deriving Repr, DecidableEq

/-- Go `NewOneToOne(size, alerter)`: a buffer of `size` empty slots, both
cursors at 0.  No validation of `size` is performed.  The alerter argument
is modelled by the (initially empty) `alerts` log. -/
def NewOneToOne (α : Type) (size : Nat) : OneToOne α :=
  { buffer := List.replicate size none
    writeIndex := 0
    readIndex := 0
    alerts := [] }

/-- Go `Set`: store `⟨data, writeIndex⟩` in slot `writeIndex % len(buffer)`,
unconditionally overwriting it, and increment `writeIndex`. -/
def Set {α : Type} (d : OneToOne α) (data : α) : OneToOne α :=
  let idx := d.writeIndex % d.buffer.length
  let newBucket : Bucket α := { data := data, seq := d.writeIndex }
  { d with writeIndex := d.writeIndex + 1
           buffer := d.buffer.set idx (some newBucket) }

/-- `Set` including the Go runtime panic: `writeIndex % uint64(len(buffer))`
panics (integer divide by zero) when the buffer has length 0. -/
def Set? {α : Type} (d : OneToOne α) (data : α) : Option (OneToOne α) :=
  if d.buffer.length = 0 then none else some (Set d data)

/-- The catch-up step at the top of the Go `TryNext` loop: if
`readIndex + len(buffer) < writeIndex`, jump `readIndex` to
`writeIndex - len(buffer)` and call `Alert` with the distance jumped. -/
def catchUp {α : Type} (d : OneToOne α) : OneToOne α :=
  if d.readIndex + d.buffer.length < d.writeIndex then
    { d with readIndex := d.writeIndex - d.buffer.length
             alerts := d.alerts ++ [d.writeIndex - d.buffer.length - d.readIndex] }
  else d

/-- Number of occupied (non-nil) slots; the `TryNext` loop strictly
decreases it at every retry, which bounds the number of iterations. -/
def countSome {β : Type} : List (Option β) → Nat
  | [] => 0
  | none :: t => countSome t
  | some _ :: t => countSome t + 1

/-- The Go `TryNext` loop, one constructor layer of fuel per iteration.
Each iteration: catch-up check, `idx := readIndex % len(buffer)`, atomically
swap slot `idx` with nil; an empty slot returns `(nil, false)`; a bucket
with `seq ≠ readIndex` is discarded, `readIndex` is incremented and the
loop retries; otherwise `readIndex` is incremented and the data returned.
The third component counts the loop iterations executed.  The fuel-0 case
is unreachable for the fuel used by `tryNextAux` (see `tryNextLoop_congr`):
every retry empties one occupied slot. -/
def tryNextLoop {α : Type} : OneToOne α → Nat → OneToOne α × Option α × Nat
  | d, 0 => (d, none, 0)
  | d, fuel + 1 =>
    let d1 := catchUp d
    let idx := d1.readIndex % d1.buffer.length
    let d2 : OneToOne α := { d1 with buffer := d1.buffer.set idx none }
    match d1.buffer.getD idx none with
    | none => (d2, none, 1)
    | some b =>
      if b.seq ≠ d1.readIndex then
        let r := tryNextLoop { d2 with readIndex := d1.readIndex + 1 } fuel
        (r.1, r.2.1, r.2.2 + 1)
      else
        ({ d2 with readIndex := d1.readIndex + 1 }, some b.data, 1)

/-- Go `TryNext` together with its iteration count. -/
def tryNextAux {α : Type} (d : OneToOne α) : OneToOne α × Option α × Nat :=
  tryNextLoop d (countSome d.buffer + 1)

/-- Go `TryNext`: the updated diode and the result; `none` encodes the Go
return `(nil, false)`, `some v` encodes `(v, true)`. -/
def TryNext {α : Type} (d : OneToOne α) : OneToOne α × Option α :=
  ((tryNextAux d).1, (tryNextAux d).2.1)

/-- Number of loop iterations a `TryNext` call executes. -/
def tryNextIters {α : Type} (d : OneToOne α) : Nat :=
  (tryNextAux d).2.2

/-- `TryNext` including the Go runtime panic on a zero-length buffer
(`readIndex % uint64(len(buffer))` divides by zero). -/
def TryNext? {α : Type} (d : OneToOne α) : Option (OneToOne α × Option α) :=
  if d.buffer.length = 0 then none else some (TryNext d)

/-- An operation issued against the diode: a `Set` with a payload, or a
`TryNext`. -/
inductive Op (α : Type) where
  | set (a : α)
  | tryNext
  deriving Repr, DecidableEq

/-- One whole call, taken as an atomic step (SPSC calls do not overlap). -/
def step {α : Type} (d : OneToOne α) : Op α → OneToOne α
  | .set a => Set d a
  | .tryNext => (tryNextAux d).1

/-- Run a call sequence, collecting the values returned by successful
`TryNext` calls, in order. -/
def runOut {α : Type} (d : OneToOne α) : List (Op α) → OneToOne α × List α
  | [] => (d, [])
  | .set a :: rest => runOut (Set d a) rest
  | .tryNext :: rest =>
    let t := tryNextAux d
    let p := runOut t.1 rest
    (p.1, t.2.1.toList ++ p.2)

/-- The diode state after a call sequence. -/
def run {α : Type} (d : OneToOne α) (ops : List (Op α)) : OneToOne α :=
  (runOut d ops).1

/-- The values passed to `Set` in a call sequence, in order. -/
def inputs {α : Type} : List (Op α) → List α
  | [] => []
  | .set a :: rest => a :: inputs rest
  | .tryNext :: rest => inputs rest

/-- Number of `Set` calls in a call sequence. -/
def countSets {α : Type} : List (Op α) → Nat
  | [] => 0
  | .set _ :: rest => countSets rest + 1
  | .tryNext :: rest => countSets rest

/-- Issue one `Set` per value of `vs`, left to right. -/
def setAll {α : Type} (d : OneToOne α) (vs : List α) : OneToOne α :=
  vs.foldl Set d

/-- The writer is at most `capacity` ahead of the reader. -/
def okState {α : Type} (d : OneToOne α) : Bool :=
  d.writeIndex ≤ d.readIndex + d.buffer.length

/-- `okState` holds before every call of the sequence and at the end:
no `Set` ever overwrites an unread value. -/
def noOv {α : Type} (d : OneToOne α) : List (Op α) → Bool
  | [] => okState d
  | op :: rest => okState d && noOv (step d op) rest

/-- States reachable from a freshly constructed diode of positive capacity
by whole `Set`/`TryNext` calls (capacity 0 panics on the first call, see
`Set?`/`TryNext?`). -/
def Reachable {α : Type} (d : OneToOne α) : Prop :=
  ∃ c ops, 1 ≤ c ∧ run (NewOneToOne α c) ops = d

/-! ### List and arithmetic helpers -/

theorem getD_set_self {γ : Type} (l : List γ) (i : Nat) (x dflt : γ)
    (h : i < l.length) : (l.set i x).getD i dflt = x := by
  rw [List.getD_eq_getElem?_getD, List.getElem?_set_self h]
  rfl

theorem getD_set_ne {γ : Type} (l : List γ) (i j : Nat) (x dflt : γ)
    (h : i ≠ j) : (l.set i x).getD j dflt = l.getD j dflt := by
  rw [List.getD_eq_getElem?_getD, List.getElem?_set_ne h,
    ← List.getD_eq_getElem?_getD]

theorem getD_replicate_none {β : Type} (n j : Nat) :
    (List.replicate n (none : Option β)).getD j none = none := by
  rw [List.getD_eq_getElem?_getD, List.getElem?_replicate]
  split <;> rfl

theorem set_none_of_getD_none {β : Type} (l : List (Option β)) (i : Nat)
    (h : l.getD i none = none) : l.set i none = l := by
  induction l generalizing i with
  | nil => rfl
  | cons hd t ih =>
    cases i with
    | zero =>
      rw [List.getD_cons_zero] at h
      simp [List.set, h]
    | succ n =>
      rw [List.getD_cons_succ] at h
      simp [List.set, ih n h]

theorem countSome_set_none_lt {β : Type} (l : List (Option β)) (i : Nat) (b : β)
    (h : l.getD i none = some b) : countSome (l.set i none) < countSome l := by
  induction l generalizing i with
  | nil => rw [List.getD_nil] at h; cases h
  | cons hd t ih =>
    cases i with
    | zero =>
      rw [List.getD_cons_zero] at h
      subst h
      simp only [List.set, countSome]
      have : countSome (none :: t) = countSome t := rfl
      omega
    | succ n =>
      rw [List.getD_cons_succ] at h
      cases hd with
      | none =>
        simpa only [List.set, countSome] using ih n h
      | some b' =>
        simp only [List.set, countSome]
        exact Nat.succ_lt_succ (ih n h)

theorem mem_of_getD_some {β : Type} (l : List (Option β)) (i : Nat) (b : β)
    (h : l.getD i none = some b) : some b ∈ l := by
  induction l generalizing i with
  | nil => rw [List.getD_nil] at h; cases h
  | cons hd t ih =>
    cases i with
    | zero =>
      rw [List.getD_cons_zero] at h
      exact h ▸ List.mem_cons_self hd t
    | succ n =>
      rw [List.getD_cons_succ] at h
      exact List.mem_cons_of_mem hd (ih n h)

theorem mod_ne_of_between {m n c : Nat} (hmn : m < n) (hnc : n < m + c) :
    m % c ≠ n % c := by
  intro h
  have hmod : m ≡ n [MOD c] := h
  have hdvd : c ∣ n - m := (Nat.modEq_iff_dvd' (Nat.le_of_lt hmn)).mp hmod
  have := Nat.eq_zero_of_dvd_of_lt hdvd (by omega)
  omega

/-! ### Basic facts about `catchUp` -/

theorem catchUp_buffer {α : Type} (d : OneToOne α) :
    (catchUp d).buffer = d.buffer := by
  unfold catchUp; split <;> rfl

theorem catchUp_writeIndex {α : Type} (d : OneToOne α) :
    (catchUp d).writeIndex = d.writeIndex := by
  unfold catchUp; split <;> rfl

theorem catchUp_alerts {α : Type} (d : OneToOne α) :
    (catchUp d).alerts = d.alerts ++
      (if d.readIndex + d.buffer.length < d.writeIndex then
        [d.writeIndex - d.buffer.length - d.readIndex] else []) := by
  unfold catchUp; split <;> simp

theorem catchUp_readIndex {α : Type} (d : OneToOne α) :
    (catchUp d).readIndex =
      if d.readIndex + d.buffer.length < d.writeIndex then
        d.writeIndex - d.buffer.length else d.readIndex := by
  unfold catchUp; split <;> rfl

theorem catchUp_readIndex_ge {α : Type} (d : OneToOne α) :
    d.readIndex ≤ (catchUp d).readIndex := by
  rw [catchUp_readIndex]; split <;> omega

theorem catchUp_window {α : Type} (d : OneToOne α) :
    (catchUp d).writeIndex ≤ (catchUp d).readIndex + (catchUp d).buffer.length := by
  rw [catchUp_writeIndex, catchUp_readIndex, catchUp_buffer]
  split <;> omega

theorem catchUp_eq_self {α : Type} (d : OneToOne α)
    (h : ¬ d.readIndex + d.buffer.length < d.writeIndex) : catchUp d = d := by
  unfold catchUp
  simp [h]

/-! ### The fuel of `tryNextLoop` is irrelevant above `countSome` -/

theorem tryNextLoop_congr {α : Type} :
    ∀ (f g : Nat) (d : OneToOne α),
      countSome d.buffer < f → countSome d.buffer < g →
      tryNextLoop d f = tryNextLoop d g := by
  intro f
  induction f with
  | zero => intro g d hf hg; omega
  | succ f ih =>
    intro g d hf hg
    cases g with
    | zero => omega
    | succ g =>
      simp only [tryNextLoop]
      cases hslot : (catchUp d).buffer.getD
          ((catchUp d).readIndex % (catchUp d).buffer.length) none with
      | none => rfl
      | some b =>
        by_cases hseq : b.seq = (catchUp d).readIndex
        · simp [hseq]
        · have hdec : countSome ((catchUp d).buffer.set
              ((catchUp d).readIndex % (catchUp d).buffer.length) none) <
              countSome d.buffer := by
            have h := countSome_set_none_lt ((catchUp d).buffer) _ b hslot
            rw [catchUp_buffer] at h
            rw [catchUp_buffer]
            exact h
          have e := ih g
            { catchUp d with
              buffer := (catchUp d).buffer.set
                ((catchUp d).readIndex % (catchUp d).buffer.length) none
              readIndex := (catchUp d).readIndex + 1 }
            (by exact Nat.lt_of_lt_of_le hdec (Nat.lt_succ_iff.mp hf))
            (by exact Nat.lt_of_lt_of_le hdec (Nat.lt_succ_iff.mp hg))
          simp only [hseq, if_true, if_false, ne_eq, not_false_eq_true, ite_true]
          rw [e]

/-- `tryNextAux` satisfies the exact self-referential unfolding of the Go
`TryNext` loop: its fuel never runs out. -/
theorem tryNextAux_eq {α : Type} (d : OneToOne α) :
    tryNextAux d =
      (let d1 := catchUp d
       let idx := d1.readIndex % d1.buffer.length
       let d2 : OneToOne α := { d1 with buffer := d1.buffer.set idx none }
       match d1.buffer.getD idx none with
       | none => (d2, none, 1)
       | some b =>
         if b.seq ≠ d1.readIndex then
           let r := tryNextAux { d2 with readIndex := d1.readIndex + 1 }
           (r.1, r.2.1, r.2.2 + 1)
         else
           ({ d2 with readIndex := d1.readIndex + 1 }, some b.data, 1)) := by
  show tryNextLoop d (countSome d.buffer + 1) = _
  simp only [tryNextLoop]
  cases hslot : (catchUp d).buffer.getD
      ((catchUp d).readIndex % (catchUp d).buffer.length) none with
  | none => rfl
  | some b =>
    by_cases hseq : b.seq = (catchUp d).readIndex
    · simp [hseq]
    · have hdec : countSome ((catchUp d).buffer.set
          ((catchUp d).readIndex % (catchUp d).buffer.length) none) <
          countSome d.buffer := by
        have h := countSome_set_none_lt ((catchUp d).buffer) _ b hslot
        rw [catchUp_buffer] at h
        rw [catchUp_buffer]
        exact h
      have e := tryNextLoop_congr (countSome d.buffer)
        (countSome ((catchUp d).buffer.set
          ((catchUp d).readIndex % (catchUp d).buffer.length) none) + 1)
        { catchUp d with
          buffer := (catchUp d).buffer.set
            ((catchUp d).readIndex % (catchUp d).buffer.length) none
          readIndex := (catchUp d).readIndex + 1 }
        (by exact hdec) (by exact Nat.lt_succ_self _)
      simp only [hseq, if_true, if_false, ne_eq, not_false_eq_true, ite_true]
      rw [e]
      rfl

/-! ### Per-call facts about `TryNext` that need no invariant -/

theorem tryNextLoop_writeIndex {α : Type} :
    ∀ (fuel : Nat) (d : OneToOne α),
      (tryNextLoop d fuel).1.writeIndex = d.writeIndex := by
  intro fuel
  induction fuel with
  | zero => intro d; rfl
  | succ fuel ih =>
    intro d
    simp only [tryNextLoop]
    cases hslot : (catchUp d).buffer.getD
        ((catchUp d).readIndex % (catchUp d).buffer.length) none with
    | none => simpa using catchUp_writeIndex d
    | some b =>
      by_cases hseq : b.seq = (catchUp d).readIndex
      · simpa [hseq] using catchUp_writeIndex d
      · simp only [hseq, ne_eq, not_false_eq_true, ite_true]
        rw [ih]
        simpa using catchUp_writeIndex d

theorem tryNextLoop_buffer_length {α : Type} :
    ∀ (fuel : Nat) (d : OneToOne α),
      (tryNextLoop d fuel).1.buffer.length = d.buffer.length := by
  intro fuel
  induction fuel with
  | zero => intro d; rfl
  | succ fuel ih =>
    intro d
    simp only [tryNextLoop]
    cases hslot : (catchUp d).buffer.getD
        ((catchUp d).readIndex % (catchUp d).buffer.length) none with
    | none =>
      simpa [List.length_set] using congrArg List.length (catchUp_buffer d)
    | some b =>
      by_cases hseq : b.seq = (catchUp d).readIndex
      · simpa [hseq, List.length_set] using congrArg List.length (catchUp_buffer d)
      · simp only [hseq, ne_eq, not_false_eq_true, ite_true]
        rw [ih]
        simpa [List.length_set] using congrArg List.length (catchUp_buffer d)

theorem tryNextLoop_readIndex_ge {α : Type} :
    ∀ (fuel : Nat) (d : OneToOne α),
      d.readIndex ≤ (tryNextLoop d fuel).1.readIndex := by
  intro fuel
  induction fuel with
  | zero => intro d; exact Nat.le_refl _
  | succ fuel ih =>
    intro d
    have hcu := catchUp_readIndex_ge d
    simp only [tryNextLoop]
    cases hslot : (catchUp d).buffer.getD
        ((catchUp d).readIndex % (catchUp d).buffer.length) none with
    | none => simpa using hcu
    | some b =>
      by_cases hseq : b.seq = (catchUp d).readIndex
      · simp only [hseq, ne_eq, not_true_eq_false, ite_false]
        exact Nat.le_trans hcu (Nat.le_succ _)
      · simp only [hseq, ne_eq, not_false_eq_true, ite_true]
        have h2 := ih { catchUp d with
          buffer := (catchUp d).buffer.set
            ((catchUp d).readIndex % (catchUp d).buffer.length) none
          readIndex := (catchUp d).readIndex + 1 }
        simp only [] at h2
        omega

theorem tryNextLoop_alerts_of_ge {α : Type} :
    ∀ (fuel : Nat) (d : OneToOne α),
      d.writeIndex ≤ d.readIndex + d.buffer.length →
      (tryNextLoop d fuel).1.alerts = d.alerts := by
  intro fuel
  induction fuel with
  | zero => intro d _; rfl
  | succ fuel ih =>
    intro d hok
    have hcu : catchUp d = d := catchUp_eq_self d (by omega)
    simp only [tryNextLoop, hcu]
    cases hslot : d.buffer.getD (d.readIndex % d.buffer.length) none with
    | none => rfl
    | some b =>
      by_cases hseq : b.seq = d.readIndex
      · simp [hseq]
      · simp only [hseq, ne_eq, not_false_eq_true, ite_true]
        rw [ih]
        simp only [List.length_set]
        omega

theorem tryNextLoop_alerts_succ {α : Type} (fuel : Nat) (d : OneToOne α) :
    (tryNextLoop d (fuel + 1)).1.alerts = (catchUp d).alerts := by
  simp only [tryNextLoop]
  cases hslot : (catchUp d).buffer.getD
      ((catchUp d).readIndex % (catchUp d).buffer.length) none with
  | none => rfl
  | some b =>
    by_cases hseq : b.seq = (catchUp d).readIndex
    · simp [hseq]
    · simp only [hseq, ne_eq, not_false_eq_true, ite_true]
      rw [tryNextLoop_alerts_of_ge]
      have hw := catchUp_window d
      simp only [List.length_set]
      omega

theorem tryNextAux_writeIndex {α : Type} (d : OneToOne α) :
    (tryNextAux d).1.writeIndex = d.writeIndex :=
  tryNextLoop_writeIndex _ d

theorem tryNextAux_buffer_length {α : Type} (d : OneToOne α) :
    (tryNextAux d).1.buffer.length = d.buffer.length :=
  tryNextLoop_buffer_length _ d

theorem tryNextAux_readIndex_ge {α : Type} (d : OneToOne α) :
    d.readIndex ≤ (tryNextAux d).1.readIndex :=
  tryNextLoop_readIndex_ge _ d

theorem tryNextAux_alerts {α : Type} (d : OneToOne α) :
    (tryNextAux d).1.alerts = d.alerts ++
      (if d.readIndex + d.buffer.length < d.writeIndex then
        [d.writeIndex - d.buffer.length - d.readIndex] else []) := by
  rw [← catchUp_alerts]
  exact tryNextLoop_alerts_succ _ d

/-! ### The sequential invariant

`ins` is the list of all values passed to `Set` so far.  Every occupied
slot holds the most recent write to that slot, its sequence number is at
least `readIndex`, and the cursors satisfy `readIndex ≤ writeIndex`. -/

/-- What an occupied slot `j` may hold: the bucket of a write `b.seq` that
is not yet read (`r ≤ b.seq`), already issued (`b.seq < w`), not yet
overwritten (`w ≤ b.seq + c`), and belongs to this slot (`b.seq % c = j`),
carrying the value passed to that `Set` call. -/
def slotOK {α : Type} (ins : List α) (r w c j : Nat) : Option (Bucket α) → Prop
  | none => True
  | some b =>
    ins[b.seq]? = some b.data ∧ r ≤ b.seq ∧ b.seq < w ∧ w ≤ b.seq + c ∧ b.seq % c = j

/-- The sequential state invariant of a positive-capacity diode. -/
def INV {α : Type} (d : OneToOne α) (ins : List α) : Prop :=
  1 ≤ d.buffer.length ∧
  d.writeIndex = ins.length ∧
  d.readIndex ≤ d.writeIndex ∧
  ∀ j, slotOK ins d.readIndex d.writeIndex d.buffer.length j (d.buffer.getD j none)

theorem INV_new {α : Type} (c : Nat) (hc : 1 ≤ c) : INV (NewOneToOne α c) [] := by
  refine ⟨by simpa [NewOneToOne] using hc, rfl, Nat.le_refl _, ?_⟩
  intro j
  show slotOK [] 0 0 (List.replicate c (none : Option (Bucket α))).length j
    ((List.replicate c none).getD j none)
  rw [getD_replicate_none]
  trivial

theorem INV_Set {α : Type} {d : OneToOne α} {ins : List α}
    (h : INV d ins) (a : α) : INV (Set d a) (ins ++ [a]) := by
  obtain ⟨hc, hw, hrw, hslot⟩ := h
  have hidx : d.writeIndex % d.buffer.length < d.buffer.length :=
    Nat.mod_lt _ (by omega)
  refine ⟨?_, ?_, ?_, ?_⟩
  · simpa [Set, List.length_set] using hc
  · simp [Set, hw]
  · simp only [Set]
    omega
  · intro j
    simp only [Set, List.length_set]
    by_cases hj : j = d.writeIndex % d.buffer.length
    · subst hj
      rw [getD_set_self _ _ _ _ hidx]
      refine ⟨?_, ?_, ?_, ?_, rfl⟩
      · show (ins ++ [a])[d.writeIndex]? = some a
        rw [hw]
        exact List.getElem?_concat_length ins a
      · show d.readIndex ≤ d.writeIndex
        omega
      · show d.writeIndex < d.writeIndex + 1
        omega
      · show d.writeIndex + 1 ≤ d.writeIndex + d.buffer.length
        omega
    · rw [getD_set_ne _ _ _ _ _ fun he => hj he.symm]
      have hs := hslot j
      cases hgd : d.buffer.getD j none with
      | none => trivial
      | some b =>
        rw [hgd] at hs
        simp only [slotOK] at hs ⊢
        obtain ⟨hv, hr, hlt, hwin, hmod⟩ := hs
        have hne : b.seq + d.buffer.length ≠ d.writeIndex := by
          intro he
          apply hj
          rw [← hmod, ← he, Nat.add_mod_right]
        refine ⟨?_, hr, by omega, by omega, hmod⟩
        rw [List.getElem?_append]
        rw [if_pos (by omega)]
        exact hv

theorem catchUp_INV {α : Type} {d : OneToOne α} {ins : List α}
    (h : INV d ins) : INV (catchUp d) ins := by
  obtain ⟨hc, hw, hrw, hslot⟩ := h
  unfold catchUp
  split
  · next hfire =>
    refine ⟨hc, hw, by show d.writeIndex - d.buffer.length ≤ d.writeIndex; omega, ?_⟩
    intro j
    have hs := hslot j
    show slotOK ins (d.writeIndex - d.buffer.length) d.writeIndex d.buffer.length j
      (d.buffer.getD j none)
    cases hgd : d.buffer.getD j none with
    | none => trivial
    | some b =>
      rw [hgd] at hs
      simp only [slotOK] at hs ⊢
      obtain ⟨hv, hr, hlt, hwin, hmod⟩ := hs
      exact ⟨hv, by omega, hlt, hwin, hmod⟩
  · exact ⟨hc, hw, hrw, hslot⟩

theorem tryNextAux_of_INV_none {α : Type} {d : OneToOne α} {ins : List α}
    (_h : INV d ins)
    (hslot : (catchUp d).buffer.getD
      ((catchUp d).readIndex % (catchUp d).buffer.length) none = none) :
    tryNextAux d = (catchUp d, none, 1) := by
  rw [tryNextAux_eq]
  simp only [hslot]
  rw [set_none_of_getD_none _ _ hslot]

theorem tryNextAux_of_INV_some {α : Type} {d : OneToOne α} {ins : List α}
    (h : INV d ins) {b : Bucket α}
    (hslot : (catchUp d).buffer.getD
      ((catchUp d).readIndex % (catchUp d).buffer.length) none = some b) :
    b.seq = (catchUp d).readIndex ∧
    ins[(catchUp d).readIndex]? = some b.data ∧
    tryNextAux d =
      ({ catchUp d with
          buffer := (catchUp d).buffer.set
            ((catchUp d).readIndex % (catchUp d).buffer.length) none
          readIndex := (catchUp d).readIndex + 1 }, some b.data, 1) := by
  obtain ⟨hc, hw, hrw, hslot'⟩ := catchUp_INV h
  have hwin := catchUp_window d
  have hs := hslot' ((catchUp d).readIndex % (catchUp d).buffer.length)
  rw [hslot] at hs
  simp only [slotOK] at hs
  obtain ⟨hv, hr, hlt, _, hmod⟩ := hs
  rw [catchUp_writeIndex] at hlt
  have hseq : b.seq = (catchUp d).readIndex := by
    have hdvd : (catchUp d).buffer.length ∣ b.seq - (catchUp d).readIndex := by
      refine (Nat.modEq_iff_dvd' hr).mp ?_
      exact hmod.symm
    have hsmall : b.seq - (catchUp d).readIndex < (catchUp d).buffer.length := by
      rw [catchUp_writeIndex, catchUp_buffer] at hwin
      rw [catchUp_buffer]
      omega
    have := Nat.eq_zero_of_dvd_of_lt hdvd
    rw [catchUp_buffer] at hdvd hsmall
    have hz : b.seq - (catchUp d).readIndex = 0 :=
      Nat.eq_zero_of_dvd_of_lt hdvd hsmall
    omega
  refine ⟨hseq, by rw [← hseq]; exact hv, ?_⟩
  rw [tryNextAux_eq]
  simp only [hslot]
  rw [if_neg (by simpa using hseq)]

theorem INV_tryNextAux {α : Type} {d : OneToOne α} {ins : List α}
    (h : INV d ins) : INV (tryNextAux d).1 ins := by
  obtain ⟨hc, hw, hrw, hslot'⟩ := catchUp_INV h
  cases hslot : (catchUp d).buffer.getD
      ((catchUp d).readIndex % (catchUp d).buffer.length) none with
  | none =>
    rw [tryNextAux_of_INV_none h hslot]
    exact ⟨hc, hw, hrw, hslot'⟩
  | some b =>
    obtain ⟨hseq, hv, heq⟩ := tryNextAux_of_INV_some h hslot
    rw [heq]
    have hs := hslot' ((catchUp d).readIndex % (catchUp d).buffer.length)
    rw [hslot] at hs
    simp only [slotOK] at hs
    obtain ⟨_, _, hlt, _, _⟩ := hs
    refine ⟨?_, ?_, ?_, ?_⟩
    · show 1 ≤ ((catchUp d).buffer.set
        ((catchUp d).readIndex % (catchUp d).buffer.length) none).length
      simpa [List.length_set] using hc
    · show (catchUp d).writeIndex = ins.length
      exact hw
    · show (catchUp d).readIndex + 1 ≤ (catchUp d).writeIndex
      omega
    · intro j
      show slotOK ins ((catchUp d).readIndex + 1) (catchUp d).writeIndex
        (((catchUp d).buffer.set
          ((catchUp d).readIndex % (catchUp d).buffer.length) none).length) j
        (((catchUp d).buffer.set
          ((catchUp d).readIndex % (catchUp d).buffer.length) none).getD j none)
      rw [List.length_set]
      by_cases hj : j = (catchUp d).readIndex % (catchUp d).buffer.length
      · subst hj
        rw [getD_set_self _ _ _ _ (Nat.mod_lt _ (by omega))]
        trivial
      · rw [getD_set_ne _ _ _ _ _ fun he => hj he.symm]
        have hs2 := hslot' j
        cases hgd : (catchUp d).buffer.getD j none with
        | none => trivial
        | some b2 =>
          rw [hgd] at hs2
          simp only [slotOK] at hs2 ⊢
          obtain ⟨hv2, hr2, hlt2, hwin2, hmod2⟩ := hs2
          have hne : b2.seq ≠ (catchUp d).readIndex := by
            intro he
            apply hj
            rw [← hmod2, he]
          exact ⟨hv2, by omega, hlt2, hwin2, hmod2⟩

/-! ### The invariant along whole call sequences -/

theorem INV_run {α : Type} :
    ∀ (ops : List (Op α)) (d : OneToOne α) (ins : List α),
      INV d ins → INV (run d ops) (ins ++ inputs ops) := by
  intro ops
  induction ops with
  | nil => intro d ins h; simpa [run, runOut, inputs] using h
  | cons op rest ih =>
    intro d ins h
    cases op with
    | set a =>
      have h2 := ih (Set d a) (ins ++ [a]) (INV_Set h a)
      simpa [run, runOut, inputs] using h2
    | tryNext =>
      have h2 := ih (tryNextAux d).1 ins (INV_tryNextAux h)
      simpa [run, runOut, inputs] using h2

theorem Reachable_INV {α : Type} {d : OneToOne α} (h : Reachable d) :
    ∃ ins, INV d ins := by
  obtain ⟨c, ops, hc, heq⟩ := h
  subst heq
  exact ⟨[] ++ inputs ops, INV_run ops _ [] (INV_new c hc)⟩

/-! ### The state after a pure burst of `Set` calls -/

theorem setAll_eq_run {α : Type} :
    ∀ (vs : List α) (d : OneToOne α), setAll d vs = run d (vs.map Op.set) := by
  intro vs
  induction vs with
  | nil => intro d; rfl
  | cons v t ih =>
    intro d
    show setAll (Set d v) t = run d (Op.set v :: t.map Op.set)
    rw [ih (Set d v)]
    rfl

theorem inputs_map_set {α : Type} :
    ∀ vs : List α, inputs (vs.map Op.set) = vs := by
  intro vs
  induction vs with
  | nil => rfl
  | cons v t ih => show v :: inputs (t.map Op.set) = v :: t; rw [ih]

theorem setAll_readIndex {α : Type} :
    ∀ (vs : List α) (d : OneToOne α), (setAll d vs).readIndex = d.readIndex := by
  intro vs
  induction vs with
  | nil => intro d; rfl
  | cons v t ih => intro d; exact ih (Set d v)

theorem setAll_writeIndex {α : Type} :
    ∀ (vs : List α) (d : OneToOne α),
      (setAll d vs).writeIndex = d.writeIndex + vs.length := by
  intro vs
  induction vs with
  | nil => intro d; rfl
  | cons v t ih =>
    intro d
    show (setAll (Set d v) t).writeIndex = d.writeIndex + (t.length + 1)
    rw [ih (Set d v)]
    show d.writeIndex + 1 + t.length = d.writeIndex + (t.length + 1)
    omega

theorem setAll_alerts {α : Type} :
    ∀ (vs : List α) (d : OneToOne α), (setAll d vs).alerts = d.alerts := by
  intro vs
  induction vs with
  | nil => intro d; rfl
  | cons v t ih => intro d; exact ih (Set d v)

theorem setAll_buffer_length {α : Type} :
    ∀ (vs : List α) (d : OneToOne α),
      (setAll d vs).buffer.length = d.buffer.length := by
  intro vs
  induction vs with
  | nil => intro d; rfl
  | cons v t ih =>
    intro d
    show (setAll (Set d v) t).buffer.length = d.buffer.length
    rw [ih (Set d v)]
    show (d.buffer.set _ _).length = d.buffer.length
    exact List.length_set _ _ _

/-- After writing `vs` into a fresh diode of capacity `c`, each of the last
`c` writes `m` is still present in slot `m % c`, tagged with `m`. -/
theorem setAll_slot {α : Type} :
    ∀ (vs : List α) (c : Nat), 1 ≤ c → ∀ (m : Nat) (x : α),
      vs[m]? = some x → vs.length ≤ m + c →
      (setAll (NewOneToOne α c) vs).buffer.getD (m % c) none =
        some { data := x, seq := m } := by
  intro vs
  induction vs using List.reverseRecOn with
  | nil => intro c hc m x hm hlen; cases hm
  | append_singleton ws v ih =>
    intro c hc m x hm hlen
    have hlen' : ws.length + 1 ≤ m + c := by simpa using hlen
    have hmlt : m < ws.length + 1 := by
      by_contra hge
      rw [List.getElem?_eq_none (by simpa using by omega)] at hm
      cases hm
    have hSet : setAll (NewOneToOne α c) (ws ++ [v]) =
        Set (setAll (NewOneToOne α c) ws) v := List.foldl_concat _ _ _ _
    have hwS : (setAll (NewOneToOne α c) ws).writeIndex = ws.length := by
      rw [setAll_writeIndex]
      show 0 + ws.length = ws.length
      omega
    have hlS : (setAll (NewOneToOne α c) ws).buffer.length = c := by
      rw [setAll_buffer_length]
      exact List.length_replicate c none
    rw [hSet]
    show ((setAll (NewOneToOne α c) ws).buffer.set
        ((setAll (NewOneToOne α c) ws).writeIndex %
          (setAll (NewOneToOne α c) ws).buffer.length)
        (some { data := v, seq := (setAll (NewOneToOne α c) ws).writeIndex })).getD
        (m % c) none = some { data := x, seq := m }
    rw [hwS, hlS]
    by_cases hm2 : m = ws.length
    · subst hm2
      have hx : x = v := by
        rw [List.getElem?_concat_length] at hm
        exact (Option.some.inj hm).symm
      subst hx
      rw [getD_set_self _ _ _ _ (by rw [hlS]; exact Nat.mod_lt _ (by omega))]
    · have hmlt2 : m < ws.length := by omega
      have hne : ws.length % c ≠ m % c :=
        fun he => mod_ne_of_between hmlt2 (by omega) he.symm
      rw [getD_set_ne _ _ _ _ _ hne]
      refine ih c hc m x ?_ (by omega)
      rw [List.getElem?_append] at hm
      rwa [if_pos hmlt2] at hm

/-! ### Delivered values: prefix under no-overwrite, sublist in general -/

theorem take_sublist_take {α : Type} (ins : List α) {r r1 : Nat} (h : r ≤ r1) :
    (ins.take r).Sublist (ins.take r1) := by
  have : ins.take r = (ins.take r1).take r := by
    rw [List.take_take]
    rw [Nat.min_eq_left h]
  rw [this]
  exact List.take_sublist _ _

theorem noOv_out {α : Type} :
    ∀ (ops : List (Op α)) (d : OneToOne α) (ins : List α),
      INV d ins → noOv d ops = true →
      ins.take d.readIndex ++ (runOut d ops).2 =
        (ins ++ inputs ops).take (run d ops).readIndex := by
  intro ops
  induction ops with
  | nil =>
    intro d ins hI hn
    simp [runOut, run, inputs]
  | cons op rest ih =>
    intro d ins hI hn
    simp only [noOv, okState, Bool.and_eq_true, decide_eq_true_eq] at hn
    obtain ⟨hok, hn2⟩ := hn
    have hc := hI.1
    have hw := hI.2.1
    have hrw := hI.2.2.1
    cases op with
    | set a =>
      have h2 := ih (Set d a) (ins ++ [a]) (INV_Set hI a) hn2
      have htk : (ins ++ [a]).take (Set d a).readIndex = ins.take d.readIndex := by
        show (ins ++ [a]).take d.readIndex = ins.take d.readIndex
        exact List.take_append_of_le_length (by omega)
      rw [htk] at h2
      show ins.take d.readIndex ++ (runOut (Set d a) rest).2 =
        (ins ++ (a :: inputs rest)).take (run (Set d a) rest).readIndex
      rw [h2, List.append_assoc]
      simp
    | tryNext =>
      have hcu : catchUp d = d := catchUp_eq_self d (by omega)
      cases hslot : (catchUp d).buffer.getD
          ((catchUp d).readIndex % (catchUp d).buffer.length) none with
      | none =>
        have heq := tryNextAux_of_INV_none hI hslot
        rw [hcu] at heq
        have h1 : (tryNextAux d).1 = d := by rw [heq]
        have ht : (tryNextAux d).2.1 = none := by rw [heq]
        have h2 := ih (tryNextAux d).1 ins (INV_tryNextAux hI) hn2
        rw [h1] at h2
        show ins.take d.readIndex ++
            ((tryNextAux d).2.1.toList ++ (runOut (tryNextAux d).1 rest).2) =
          (ins ++ inputs rest).take (run (tryNextAux d).1 rest).readIndex
        rw [h1, ht]
        simpa using h2
      | some b =>
        obtain ⟨hseq, hv, heq⟩ := tryNextAux_of_INV_some hI hslot
        rw [hcu] at hseq hv heq
        have hre : (tryNextAux d).1.readIndex = d.readIndex + 1 := by rw [heq]
        have ht : (tryNextAux d).2.1 = some b.data := by rw [heq]
        have h2 := ih (tryNextAux d).1 ins (INV_tryNextAux hI) hn2
        rw [hre] at h2
        show ins.take d.readIndex ++
            ((tryNextAux d).2.1.toList ++ (runOut (tryNextAux d).1 rest).2) =
          (ins ++ inputs rest).take (run (tryNextAux d).1 rest).readIndex
        rw [ht]
        have htk : ins.take (d.readIndex + 1) = ins.take d.readIndex ++ [b.data] := by
          rw [List.take_succ, hv]
          rfl
        rw [htk] at h2
        rw [← h2, List.append_assoc]
        rfl

theorem sub_out {α : Type} :
    ∀ (ops : List (Op α)) (d : OneToOne α) (ins outs : List α),
      INV d ins → outs.Sublist (ins.take d.readIndex) →
      (outs ++ (runOut d ops).2).Sublist
        ((ins ++ inputs ops).take (run d ops).readIndex) := by
  intro ops
  induction ops with
  | nil =>
    intro d ins outs hI houts
    simpa [runOut, run, inputs] using houts
  | cons op rest ih =>
    intro d ins outs hI houts
    have hw := hI.2.1
    have hrw := hI.2.2.1
    cases op with
    | set a =>
      have houts2 : outs.Sublist ((ins ++ [a]).take (Set d a).readIndex) := by
        show outs.Sublist ((ins ++ [a]).take d.readIndex)
        rw [List.take_append_of_le_length (by omega)]
        exact houts
      have h2 := ih (Set d a) (ins ++ [a]) outs (INV_Set hI a) houts2
      show (outs ++ (runOut (Set d a) rest).2).Sublist
        ((ins ++ (a :: inputs rest)).take (run (Set d a) rest).readIndex)
      have : ins ++ (a :: inputs rest) = (ins ++ [a]) ++ inputs rest := by
        rw [List.append_assoc]
        rfl
      rw [this]
      exact h2
    | tryNext =>
      cases hslot : (catchUp d).buffer.getD
          ((catchUp d).readIndex % (catchUp d).buffer.length) none with
      | none =>
        have heq := tryNextAux_of_INV_none hI hslot
        have h1 : (tryNextAux d).1 = catchUp d := by rw [heq]
        have ht : (tryNextAux d).2.1 = none := by rw [heq]
        have houts2 : outs.Sublist (ins.take (tryNextAux d).1.readIndex) := by
          rw [h1]
          exact houts.trans (take_sublist_take ins (catchUp_readIndex_ge d))
        have h2 := ih (tryNextAux d).1 ins outs (INV_tryNextAux hI) houts2
        show (outs ++ ((tryNextAux d).2.1.toList ++ (runOut (tryNextAux d).1 rest).2)).Sublist
          ((ins ++ inputs rest).take (run (tryNextAux d).1 rest).readIndex)
        rw [ht]
        simpa using h2
      | some b =>
        obtain ⟨hseq, hv, heq⟩ := tryNextAux_of_INV_some hI hslot
        have hre : (tryNextAux d).1.readIndex = (catchUp d).readIndex + 1 := by
          rw [heq]
        have ht : (tryNextAux d).2.1 = some b.data := by rw [heq]
        have htk : ins.take ((catchUp d).readIndex + 1) =
            ins.take (catchUp d).readIndex ++ [b.data] := by
          rw [List.take_succ, hv]
          rfl
        have houts2 : (outs ++ [b.data]).Sublist
            (ins.take (tryNextAux d).1.readIndex) := by
          rw [hre, htk]
          exact List.Sublist.append
            (houts.trans (take_sublist_take ins (catchUp_readIndex_ge d)))
            (List.Sublist.refl _)
        have h2 := ih (tryNextAux d).1 ins (outs ++ [b.data])
          (INV_tryNextAux hI) houts2
        show (outs ++ ((tryNextAux d).2.1.toList ++ (runOut (tryNextAux d).1 rest).2)).Sublist
          ((ins ++ inputs rest).take (run (tryNextAux d).1 rest).readIndex)
        rw [ht]
        have hassoc : outs ++ ((some b.data).toList ++ (runOut (tryNextAux d).1 rest).2) =
            (outs ++ [b.data]) ++ (runOut (tryNextAux d).1 rest).2 := by
          rw [List.append_assoc]
          rfl
        rw [hassoc]
        exact h2

/-! ### No alert without overwrite -/

theorem alerts_run {α : Type} :
    ∀ (ops : List (Op α)) (d : OneToOne α),
      d.writeIndex + countSets ops ≤ d.readIndex + d.buffer.length →
      (run d ops).alerts = d.alerts := by
  intro ops
  induction ops with
  | nil => intro d _; rfl
  | cons op rest ih =>
    intro d hbound
    cases op with
    | set a =>
      have h2 := ih (Set d a) (by
        show d.writeIndex + 1 + countSets rest ≤
          d.readIndex + (d.buffer.set (d.writeIndex % d.buffer.length) _).length
        rw [List.length_set]
        have : countSets (Op.set a :: rest) = countSets rest + 1 := rfl
        omega)
      show (run (Set d a) rest).alerts = d.alerts
      rw [h2]
      rfl
    | tryNext =>
      have hcs : countSets (Op.tryNext :: rest) = countSets rest := rfl
      have hguard : ¬ d.readIndex + d.buffer.length < d.writeIndex := by omega
      have halert : (tryNextAux d).1.alerts = d.alerts := by
        rw [tryNextAux_alerts, if_neg hguard]
        rw [List.append_nil]
      have h2 := ih (tryNextAux d).1 (by
        have hge := tryNextAux_readIndex_ge d
        rw [tryNextAux_writeIndex, tryNextAux_buffer_length]
        omega)
      show (run (tryNextAux d).1 rest).alerts = d.alerts
      rw [h2, halert]

/-! ### Single-call consequences of the invariant -/

theorem tryNextIters_of_INV {α : Type} {d : OneToOne α} {ins : List α}
    (h : INV d ins) : tryNextIters d = 1 := by
  cases hslot : (catchUp d).buffer.getD
      ((catchUp d).readIndex % (catchUp d).buffer.length) none with
  | none =>
    show (tryNextAux d).2.2 = 1
    rw [tryNextAux_of_INV_none h hslot]
  | some b =>
    obtain ⟨_, _, heq⟩ := tryNextAux_of_INV_some h hslot
    show (tryNextAux d).2.2 = 1
    rw [heq]

theorem drained_tryNextAux {α : Type} {d : OneToOne α} {ins : List α}
    (h : INV d ins) (hdr : d.readIndex = d.writeIndex) :
    tryNextAux d = (d, none, 1) := by
  have hcu : catchUp d = d := catchUp_eq_self d (by omega)
  cases hslot : (catchUp d).buffer.getD
      ((catchUp d).readIndex % (catchUp d).buffer.length) none with
  | none =>
    rw [tryNextAux_of_INV_none h hslot, hcu]
  | some b =>
    exfalso
    have hs := (catchUp_INV h).2.2.2
      ((catchUp d).readIndex % (catchUp d).buffer.length)
    rw [hslot] at hs
    simp only [slotOK] at hs
    obtain ⟨_, hr, hlt, _, _⟩ := hs
    rw [hcu] at hr
    rw [catchUp_writeIndex] at hlt
    omega

theorem tryNextLoop_value {α : Type} :
    ∀ (fuel : Nat) (d : OneToOne α) (v : α),
      (tryNextLoop d fuel).2.1 = some v →
      ∃ b : Bucket α, some b ∈ d.buffer ∧ b.data = v ∧
        (tryNextLoop d fuel).1.readIndex = b.seq + 1 := by
  intro fuel
  induction fuel with
  | zero =>
    intro d v h
    simp [tryNextLoop] at h
  | succ fuel ih =>
    intro d v h
    simp only [tryNextLoop] at h ⊢
    cases hslot : (catchUp d).buffer.getD
        ((catchUp d).readIndex % (catchUp d).buffer.length) none with
    | none =>
      simp only [hslot] at h
      simp at h
    | some b =>
      simp only [hslot] at h ⊢
      by_cases hseq : b.seq = (catchUp d).readIndex
      · rw [if_neg (by simpa using hseq)] at h ⊢
        have hv : b.data = v := by simpa using h
        refine ⟨b, ?_, hv, ?_⟩
        · have hmem := mem_of_getD_some _ _ _ hslot
          rwa [catchUp_buffer] at hmem
        · show (catchUp d).readIndex + 1 = b.seq + 1
          rw [hseq]
      · rw [if_pos (by simpa using hseq)] at h ⊢
        obtain ⟨b2, hmem, hdata, hread⟩ := ih _ v h
        refine ⟨b2, ?_, hdata, ?_⟩
        · have hmem2 : some b2 ∈ (catchUp d).buffer.set
              ((catchUp d).readIndex % (catchUp d).buffer.length) none := hmem
          rcases List.mem_or_eq_of_mem_set hmem2 with hin | habs
          · rwa [catchUp_buffer] at hin
          · cases habs
        · exact hread

theorem tryNextAux_value {α : Type} (d : OneToOne α) (v : α)
    (h : (tryNextAux d).2.1 = some v) :
    ∃ b : Bucket α, some b ∈ d.buffer ∧ b.data = v ∧
      (tryNextAux d).1.readIndex = b.seq + 1 :=
  tryNextLoop_value _ d v h

/-! ### Claim theorems -/

/-- Claim C3: in every state reachable from a freshly constructed diode by
`Set`/`TryNext` calls, `readIndex ≤ writeIndex`, and neither `readIndex`
nor `writeIndex` decreases across any single `Set` or `TryNext` call. -/
theorem oneToOne_monotone_cursors :
    (∀ (α : Type) (d : OneToOne α) (a : α),
      d.readIndex ≤ (Set d a).readIndex ∧
      d.writeIndex ≤ (Set d a).writeIndex) ∧
    (∀ (α : Type) (d : OneToOne α),
      d.readIndex ≤ (TryNext d).1.readIndex ∧
      d.writeIndex ≤ (TryNext d).1.writeIndex) ∧
    (∀ (α : Type) (d : OneToOne α), Reachable d →
      d.readIndex ≤ d.writeIndex) := by
  refine ⟨?_, ?_, ?_⟩
  · intro α d a
    exact ⟨Nat.le_refl _, Nat.le_succ _⟩
  · intro α d
    refine ⟨tryNextAux_readIndex_ge d, ?_⟩
    show d.writeIndex ≤ (tryNextAux d).1.writeIndex
    rw [tryNextAux_writeIndex]
  · intro α d hr
    obtain ⟨ins, hI⟩ := Reachable_INV hr
    exact hI.2.2.1

theorem oneToOne_monotone_cursors_witness :
    ((NewOneToOne Nat 1).readIndex ≤ (Set (NewOneToOne Nat 1) 4).readIndex ∧
      (NewOneToOne Nat 1).writeIndex ≤ (Set (NewOneToOne Nat 1) 4).writeIndex) ∧
    ((NewOneToOne Nat 1).readIndex ≤ (TryNext (NewOneToOne Nat 1)).1.readIndex ∧
      (NewOneToOne Nat 1).writeIndex ≤ (TryNext (NewOneToOne Nat 1)).1.writeIndex) ∧
    (run (NewOneToOne Nat 1) [Op.set 2]).readIndex ≤
      (run (NewOneToOne Nat 1) [Op.set 2]).writeIndex :=
  ⟨oneToOne_monotone_cursors.1 Nat (NewOneToOne Nat 1) 4,
   oneToOne_monotone_cursors.2.1 Nat (NewOneToOne Nat 1),
   oneToOne_monotone_cursors.2.2 Nat (run (NewOneToOne Nat 1) [Op.set 2])
     ⟨1, [Op.set 2], by decide, rfl⟩⟩

/-- Claim C4: every value returned by `TryNext` with ok = true comes from a
bucket of the pre-call buffer whose `seq` equals the `readIndex` at the
moment the bucket is taken (equivalently, the post-call `readIndex` is that
`seq + 1`); a mismatched bucket is never returned as data. -/
theorem oneToOne_seq_match_at_consumption :
    ∀ (α : Type) (d : OneToOne α) (v : α),
      (TryNext d).2 = some v →
      ∃ b : Bucket α, some b ∈ d.buffer ∧ b.data = v ∧
        (TryNext d).1.readIndex = b.seq + 1 := by
  intro α d v h
  exact tryNextAux_value d v h

theorem oneToOne_seq_match_at_consumption_witness :
    ∃ b : Bucket Nat, some b ∈ (Set (NewOneToOne Nat 1) 9).buffer ∧
      b.data = 9 ∧
      (TryNext (Set (NewOneToOne Nat 1) 9)).1.readIndex = b.seq + 1 :=
  oneToOne_seq_match_at_consumption Nat (Set (NewOneToOne Nat 1) 9) 9 (by decide)

/-- Claim C5: `TryNext` on a fresh diode returns not-ok, and once
`readIndex = writeIndex` (everything consumed) every `TryNext` with no
intervening `Set` returns not-ok (`none`, i.e. Go `(nil, false)`) and
leaves the state unchanged. -/
theorem oneToOne_empty_and_drain :
    (∀ (α : Type) (c : Nat), 1 ≤ c →
      TryNext (NewOneToOne α c) = (NewOneToOne α c, none)) ∧
    (∀ (α : Type) (d : OneToOne α), Reachable d →
      d.readIndex = d.writeIndex → TryNext d = (d, none)) := by
  constructor
  · intro α c hc
    have h := drained_tryNextAux (α := α) (INV_new c hc) rfl
    show ((tryNextAux (NewOneToOne α c)).1, (tryNextAux (NewOneToOne α c)).2.1) =
      (NewOneToOne α c, none)
    rw [h]
  · intro α d hr hdr
    obtain ⟨ins, hI⟩ := Reachable_INV hr
    have h := drained_tryNextAux hI hdr
    show ((tryNextAux d).1, (tryNextAux d).2.1) = (d, none)
    rw [h]

theorem oneToOne_empty_and_drain_witness :
    TryNext (NewOneToOne Nat 2) = (NewOneToOne Nat 2, none) ∧
    TryNext (run (NewOneToOne Nat 1) [Op.set 7, Op.tryNext]) =
      (run (NewOneToOne Nat 1) [Op.set 7, Op.tryNext], none) :=
  ⟨oneToOne_empty_and_drain.1 Nat 2 (by decide),
   oneToOne_empty_and_drain.2 Nat (run (NewOneToOne Nat 1) [Op.set 7, Op.tryNext])
     ⟨1, [Op.set 7, Op.tryNext], by decide, rfl⟩ (by decide)⟩

/-- Claim C6: if at most `capacity` `Set` calls happen after construction
(or after a state where everything written has been read), no `TryNext`
in the sequence ever invokes the alerter. -/
theorem oneToOne_no_alert_without_overwrite :
    (∀ (α : Type) (c : Nat) (ops : List (Op α)),
      countSets ops ≤ c → (run (NewOneToOne α c) ops).alerts = []) ∧
    (∀ (α : Type) (d : OneToOne α) (ops : List (Op α)),
      d.readIndex = d.writeIndex → countSets ops ≤ d.buffer.length →
      (run d ops).alerts = d.alerts) := by
  constructor
  · intro α c ops hcount
    have h := alerts_run ops (NewOneToOne α c) (by
      show 0 + countSets ops ≤ 0 + (List.replicate c (none : Option (Bucket α))).length
      rw [List.length_replicate]
      omega)
    rw [h]
    rfl
  · intro α d ops hdr hcount
    exact alerts_run ops d (by omega)

theorem oneToOne_no_alert_without_overwrite_witness :
    (run (NewOneToOne Nat 2)
      [Op.set 1, Op.set 2, Op.tryNext, Op.tryNext, Op.tryNext]).alerts = [] ∧
    (run (run (NewOneToOne Nat 1) [Op.set 7, Op.tryNext])
      [Op.set 8, Op.tryNext]).alerts =
      (run (NewOneToOne Nat 1) [Op.set 7, Op.tryNext]).alerts :=
  ⟨oneToOne_no_alert_without_overwrite.1 Nat 2
      [Op.set 1, Op.set 2, Op.tryNext, Op.tryNext, Op.tryNext] (by decide),
   oneToOne_no_alert_without_overwrite.2 Nat
      (run (NewOneToOne Nat 1) [Op.set 7, Op.tryNext])
      [Op.set 8, Op.tryNext] (by decide) (by decide)⟩

/-- Claim C7: `Set` always succeeds, increments `writeIndex` by 1, replaces
exactly slot `writeIndex % capacity` with the new tagged value, and leaves
`readIndex`, the alerter log, the capacity and every other slot unchanged. -/
theorem oneToOne_set_frame_effect :
    ∀ (α : Type) (d : OneToOne α) (a : α), 1 ≤ d.buffer.length →
      Set? d a = some (Set d a) ∧
      (Set d a).writeIndex = d.writeIndex + 1 ∧
      (Set d a).readIndex = d.readIndex ∧
      (Set d a).alerts = d.alerts ∧
      (Set d a).buffer.length = d.buffer.length ∧
      (Set d a).buffer.getD (d.writeIndex % d.buffer.length) none =
        some { data := a, seq := d.writeIndex } ∧
      ∀ j, j ≠ d.writeIndex % d.buffer.length →
        (Set d a).buffer.getD j none = d.buffer.getD j none := by
  intro α d a hc
  refine ⟨?_, rfl, rfl, rfl, List.length_set _ _ _, ?_, ?_⟩
  · rw [Set?, if_neg (by omega)]
  · exact getD_set_self _ _ _ _ (Nat.mod_lt _ (by omega))
  · intro j hj
    exact getD_set_ne _ _ _ _ _ fun he => hj he.symm

theorem oneToOne_set_frame_effect_witness :
    Set? (NewOneToOne Nat 2) 5 = some (Set (NewOneToOne Nat 2) 5) ∧
    (Set (NewOneToOne Nat 2) 5).writeIndex = (NewOneToOne Nat 2).writeIndex + 1 ∧
    (Set (NewOneToOne Nat 2) 5).readIndex = (NewOneToOne Nat 2).readIndex ∧
    (Set (NewOneToOne Nat 2) 5).alerts = (NewOneToOne Nat 2).alerts :=
  (fun h => ⟨h.1, h.2.1, h.2.2.1, h.2.2.2.1⟩)
    (oneToOne_set_frame_effect Nat (NewOneToOne Nat 2) 5 (by decide))

/-- Claim C9: `NewOneToOne` does not validate `size` (a capacity-0 diode is
constructed as asked), the first `Set` or `TryNext` on a capacity-0 diode
hits the Go modulo-by-zero panic (modelled by `Set?`/`TryNext?` returning
`none`), and with capacity ≥ 1 both calls are well-defined and every
`cursor % len(buffer)` slot index is in bounds. -/
theorem oneToOne_zero_capacity_unguarded :
    (∀ (α : Type) (size : Nat), (NewOneToOne α size).buffer.length = size) ∧
    (∀ (α : Type) (a : α), Set? (NewOneToOne α 0) a = none ∧
      TryNext? (NewOneToOne α 0) = none) ∧
    (∀ (α : Type) (d : OneToOne α) (a : α), 1 ≤ d.buffer.length →
      Set? d a = some (Set d a) ∧
      TryNext? d = some (TryNext d) ∧
      d.writeIndex % d.buffer.length < d.buffer.length ∧
      d.readIndex % d.buffer.length < d.buffer.length) := by
  refine ⟨?_, ?_, ?_⟩
  · intro α size
    exact List.length_replicate size none
  · intro α a
    exact ⟨by simp [Set?, NewOneToOne], by simp [TryNext?, NewOneToOne]⟩
  · intro α d a hc
    exact ⟨by rw [Set?, if_neg (by omega)], by rw [TryNext?, if_neg (by omega)],
      Nat.mod_lt _ (by omega), Nat.mod_lt _ (by omega)⟩

theorem oneToOne_zero_capacity_unguarded_witness :
    (NewOneToOne Nat 0).buffer.length = 0 ∧
    (Set? (NewOneToOne Nat 0) 3 = none ∧ TryNext? (NewOneToOne Nat 0) = none) ∧
    (Set? (NewOneToOne Nat 2) 3 = some (Set (NewOneToOne Nat 2) 3) ∧
      TryNext? (NewOneToOne Nat 2) = some (TryNext (NewOneToOne Nat 2)) ∧
      (NewOneToOne Nat 2).writeIndex % (NewOneToOne Nat 2).buffer.length <
        (NewOneToOne Nat 2).buffer.length ∧
      (NewOneToOne Nat 2).readIndex % (NewOneToOne Nat 2).buffer.length <
        (NewOneToOne Nat 2).buffer.length) :=
  ⟨oneToOne_zero_capacity_unguarded.1 Nat 0,
   oneToOne_zero_capacity_unguarded.2.1 Nat 3,
   oneToOne_zero_capacity_unguarded.2.2 Nat (NewOneToOne Nat 2) 3 (by decide)⟩

/-- Claim C1: after `c + k` `Set` calls (c ≥ 1, k ≥ 1) on a fresh diode of
capacity `c` and no reads, the first `TryNext` invokes the alerter exactly
once with `missed = k`, the catch-up sets `readIndex` to `writeIndex - c`,
and the call returns the `(k+1)`-th written value (index `k`) with
ok = true; in general any `TryNext` that finds
`readIndex + capacity < writeIndex` appends exactly one alert with
`missed = (writeIndex - capacity) - readIndex > 0`. -/
theorem oneToOne_exact_loss_accounting :
    (∀ (α : Type) (c k : Nat) (vs : List α), 1 ≤ c → 1 ≤ k →
      vs.length = c + k →
      (TryNext (setAll (NewOneToOne α c) vs)).2 = vs[k]? ∧
      (vs[k]?).isSome = true ∧
      (TryNext (setAll (NewOneToOne α c) vs)).1.alerts = [k] ∧
      (catchUp (setAll (NewOneToOne α c) vs)).readIndex =
        (setAll (NewOneToOne α c) vs).writeIndex - c ∧
      (TryNext (setAll (NewOneToOne α c) vs)).1.readIndex = k + 1) ∧
    (∀ (α : Type) (d : OneToOne α),
      d.readIndex + d.buffer.length < d.writeIndex →
      (TryNext d).1.alerts =
        d.alerts ++ [d.writeIndex - d.buffer.length - d.readIndex] ∧
      0 < d.writeIndex - d.buffer.length - d.readIndex) := by
  constructor
  · intro α c k vs hc hk hlen
    have hwS : (setAll (NewOneToOne α c) vs).writeIndex = c + k := by
      rw [setAll_writeIndex]
      show 0 + vs.length = c + k
      omega
    have hrS : (setAll (NewOneToOne α c) vs).readIndex = 0 := by
      rw [setAll_readIndex]
      rfl
    have haS : (setAll (NewOneToOne α c) vs).alerts = [] := by
      rw [setAll_alerts]
      rfl
    have hlS : (setAll (NewOneToOne α c) vs).buffer.length = c := by
      rw [setAll_buffer_length]
      exact List.length_replicate c none
    have hI : INV (setAll (NewOneToOne α c) vs) vs := by
      rw [setAll_eq_run]
      have h := INV_run (vs.map Op.set) (NewOneToOne α c) [] (INV_new c hc)
      rwa [inputs_map_set, List.nil_append] at h
    have hguard : (setAll (NewOneToOne α c) vs).readIndex +
        (setAll (NewOneToOne α c) vs).buffer.length <
        (setAll (NewOneToOne α c) vs).writeIndex := by
      rw [hrS, hlS, hwS]
      omega
    have hcuR : (catchUp (setAll (NewOneToOne α c) vs)).readIndex = k := by
      rw [catchUp_readIndex, if_pos hguard, hwS, hlS]
      omega
    have hcuA : (catchUp (setAll (NewOneToOne α c) vs)).alerts = [k] := by
      rw [catchUp_alerts, if_pos hguard, haS, hwS, hlS, hrS]
      have he : c + k - c - 0 = k := by omega
      rw [he]
      rfl
    have hk2 : k < vs.length := by omega
    have hx : vs[k]? = some (vs.get ⟨k, hk2⟩) := by
      rw [← List.get?_eq_getElem?]
      exact List.get?_eq_get hk2
    have hslotS := setAll_slot vs c hc k (vs.get ⟨k, hk2⟩) hx (by omega)
    have hslot : (catchUp (setAll (NewOneToOne α c) vs)).buffer.getD
        ((catchUp (setAll (NewOneToOne α c) vs)).readIndex %
          (catchUp (setAll (NewOneToOne α c) vs)).buffer.length) none =
        some { data := vs.get ⟨k, hk2⟩, seq := k } := by
      rw [catchUp_buffer, hcuR, hlS]
      exact hslotS
    obtain ⟨hseq, hv, heq⟩ := tryNextAux_of_INV_some hI hslot
    refine ⟨?_, ?_, ?_, ?_, ?_⟩
    · show (tryNextAux (setAll (NewOneToOne α c) vs)).2.1 = vs[k]?
      rw [heq, hx]
    · rw [hx]
      rfl
    · show (tryNextAux (setAll (NewOneToOne α c) vs)).1.alerts = [k]
      rw [heq]
      exact hcuA
    · rw [hcuR, hwS]
      omega
    · show (tryNextAux (setAll (NewOneToOne α c) vs)).1.readIndex = k + 1
      rw [heq]
      show (catchUp (setAll (NewOneToOne α c) vs)).readIndex + 1 = k + 1
      rw [hcuR]
  · intro α d hgap
    constructor
    · show (tryNextAux d).1.alerts = _
      rw [tryNextAux_alerts, if_pos hgap]
    · omega

theorem oneToOne_exact_loss_accounting_witness :
    (TryNext (setAll (NewOneToOne Nat 2) [10, 20, 30])).2 = [10, 20, 30][1]? ∧
    (TryNext (setAll (NewOneToOne Nat 2) [10, 20, 30])).1.alerts = [1] ∧
    0 < (setAll (NewOneToOne Nat 1) [5, 6]).writeIndex -
      (setAll (NewOneToOne Nat 1) [5, 6]).buffer.length -
      (setAll (NewOneToOne Nat 1) [5, 6]).readIndex :=
  ⟨(oneToOne_exact_loss_accounting.1 Nat 2 1 [10, 20, 30]
      (by decide) (by decide) (by decide)).1,
   (oneToOne_exact_loss_accounting.1 Nat 2 1 [10, 20, 30]
      (by decide) (by decide) (by decide)).2.2.1,
   (oneToOne_exact_loss_accounting.2 Nat (setAll (NewOneToOne Nat 1) [5, 6])
      (by decide)).2⟩

/-- Claim C2: while the writer never gets more than `capacity` ahead of the
reader, the successful `TryNext` outputs are exactly the first
`readIndex` values passed to `Set`, in order (and all of them once the
buffer is drained); in general (overwrite allowed) the outputs are a
sublist of the inputs: gaps possible, but no reordering and no
duplication. -/
theorem oneToOne_inorder_delivery :
    (∀ (α : Type) (c : Nat) (ops : List (Op α)), 1 ≤ c →
      noOv (NewOneToOne α c) ops = true →
      (runOut (NewOneToOne α c) ops).2 =
        (inputs ops).take (run (NewOneToOne α c) ops).readIndex ∧
      ((run (NewOneToOne α c) ops).readIndex =
          (run (NewOneToOne α c) ops).writeIndex →
        (runOut (NewOneToOne α c) ops).2 = inputs ops)) ∧
    (∀ (α : Type) (c : Nat) (ops : List (Op α)), 1 ≤ c →
      ((runOut (NewOneToOne α c) ops).2).Sublist (inputs ops)) := by
  constructor
  · intro α c ops hc hn
    have h := noOv_out ops (NewOneToOne α c) [] (INV_new c hc) hn
    simp only [List.take_nil, List.nil_append] at h
    refine ⟨h, ?_⟩
    intro hdr
    have hI := INV_run ops (NewOneToOne α c) [] (INV_new c hc)
    rw [List.nil_append] at hI
    rw [h, hdr, hI.2.1]
    exact List.take_length _
  · intro α c ops hc
    have h := sub_out ops (NewOneToOne α c) [] [] (INV_new c hc) (by simp)
    simp only [List.nil_append] at h
    exact h.trans (List.take_sublist _ _)

theorem oneToOne_inorder_delivery_witness :
    ((runOut (NewOneToOne Nat 1) [Op.set 4, Op.tryNext, Op.set 5, Op.tryNext]).2 =
      (inputs [Op.set 4, Op.tryNext, Op.set 5, Op.tryNext]).take
        (run (NewOneToOne Nat 1)
          [Op.set 4, Op.tryNext, Op.set 5, Op.tryNext]).readIndex) ∧
    ((runOut (NewOneToOne Nat 1)
        [Op.set 4, Op.tryNext, Op.set 5, Op.tryNext]).2).Sublist
      (inputs [Op.set 4, Op.tryNext, Op.set 5, Op.tryNext]) :=
  ⟨(oneToOne_inorder_delivery.1 Nat 1 [Op.set 4, Op.tryNext, Op.set 5, Op.tryNext]
      (by decide) (by decide)).1,
   oneToOne_inorder_delivery.2 Nat 1 [Op.set 4, Op.tryNext, Op.set 5, Op.tryNext]
      (by decide)⟩

/-- Claim C8 (counterexample): the retry loop of `TryNext` on a fresh diode
of capacity 1 executes 1 iteration, while `writeIndex - readIndex = 0`, so
"the internal retry loop executes at most `writeIndex - readIndex`
iterations" fails as stated. -/
theorem oneToOne_tryNext_iteration_cex :
    ¬ tryNextIters (NewOneToOne Nat 1) ≤
      (NewOneToOne Nat 1).writeIndex - (NewOneToOne Nat 1).readIndex := by
  decide

/-- Claim C8 (amended): from every reachable state a `TryNext` call
terminates after exactly one loop iteration, hence within
`max 1 (writeIndex - readIndex)` iterations, i.e. it performs at most
`writeIndex - readIndex` retries (each retry would strictly increase
`readIndex`). -/
theorem oneToOne_tryNext_iteration_bound :
    ∀ (α : Type) (d : OneToOne α), Reachable d →
      tryNextIters d = 1 ∧
      tryNextIters d ≤ max 1 (d.writeIndex - d.readIndex) ∧
      tryNextIters d - 1 ≤ d.writeIndex - d.readIndex := by
  intro α d hr
  obtain ⟨ins, hI⟩ := Reachable_INV hr
  have h1 := tryNextIters_of_INV hI
  refine ⟨h1, ?_, ?_⟩
  · rw [h1]
    exact le_max_left _ _
  · rw [h1]
    exact Nat.zero_le _

theorem oneToOne_tryNext_iteration_bound_witness :
    tryNextIters (run (NewOneToOne Nat 1) [Op.set 3]) = 1 :=
  (oneToOne_tryNext_iteration_bound Nat (run (NewOneToOne Nat 1) [Op.set 3])
    ⟨1, [Op.set 3], by decide, rfl⟩).1

/-- Claim C10: from every reachable state, a `TryNext` call runs exactly
one loop iteration (so at most one catch-up and one slot swap, and the
discard-and-retry branch never executes), and any bucket found in the slot
examined after the catch-up has `seq` equal to the current `readIndex`. -/
theorem oneToOne_stale_branch_unreachable :
    ∀ (α : Type) (d : OneToOne α), Reachable d →
      tryNextIters d = 1 ∧
      ∀ b : Bucket α,
        (catchUp d).buffer.getD
          ((catchUp d).readIndex % (catchUp d).buffer.length) none = some b →
        b.seq = (catchUp d).readIndex := by
  intro α d hr
  obtain ⟨ins, hI⟩ := Reachable_INV hr
  refine ⟨tryNextIters_of_INV hI, ?_⟩
  intro b hslot
  exact (tryNextAux_of_INV_some hI hslot).1

theorem oneToOne_stale_branch_unreachable_witness :
    tryNextIters (run (NewOneToOne Nat 2) [Op.set 1, Op.set 2, Op.set 3]) = 1 :=
  (oneToOne_stale_branch_unreachable Nat
    (run (NewOneToOne Nat 2) [Op.set 1, Op.set 2, Op.set 3])
    ⟨2, [Op.set 1, Op.set 2, Op.set 3], by decide, rfl⟩).1

end Diodes
